import Mathlib

/-!
Shallow embedding of the command-interpretation core of the
`lan-voice-input-macos` repository (`src/lanvi_input.py`, mirrored by
`src/server.py`): `CommandProcessor` (normalize, parse_delete_n, handle,
record_output), the dedup gate and `InputService.handle_text`, and the
`execute_command` channel.  Python strings are modelled as Lean `String`
(code points), `time.time()` floats as `ℚ`, and injection side effects as
an explicit effect list.  Python's `str.strip` / `str.replace` and the
regex search of `parse_delete_n` are re-implemented structurally (fuel
where needed) so that all definitions kernel-evaluate; `Char.isWhitespace`
stands in for Python's whitespace class (identical on the ASCII
whitespace occurring in this program's data).
-/

set_option maxRecDepth 16384

namespace LanVoice

/-- Python `str.strip()`: drop whitespace from both ends. -/
def pyStrip (s : String) : String :=
  ⟨((s.data.dropWhile Char.isWhitespace).reverse.dropWhile Char.isWhitespace).reverse⟩

/-- One pass of Python `str.replace`: fuel-bounded scan replacing each
non-overlapping occurrence of `pat` left to right.  The fuel is set to the
length of the scanned list, which each step strictly decreases. -/
def pyReplaceAux (pat rep : List Char) : Nat → List Char → List Char
  | 0, cs => cs
  | _ + 1, [] => []
  | fuel + 1, c :: cs =>
    if pat.isPrefixOf (c :: cs) then
      rep ++ pyReplaceAux pat rep fuel ((c :: cs).drop pat.length)
    else
      c :: pyReplaceAux pat rep fuel cs

/-- Python `s.replace(pat, rep)` for a non-empty pattern. -/
def pyReplace (s pat rep : String) : String :=
  if pat.data = [] then s
  else ⟨pyReplaceAux pat.data rep.data s.data.length s.data⟩

/-- `SERVER_DEDUP_WINDOW_SEC = 1.2` (seconds, as an exact rational). -/
def SERVER_DEDUP_WINDOW_SEC : ℚ := 6 / 5

/-- `HISTORY_MAX_LEN = 300`. -/
def HISTORY_MAX_LEN : Nat := 300

/-- `CLEAR_BACKSPACE_MAX = 200`. -/
def CLEAR_BACKSPACE_MAX : Nat := 200

/-- `TEST_INJECT_TEXT`. -/
def TEST_INJECT_TEXT : String := "[SendInput Test] 123 ABC 中文 测试"

/-- The `output` field of a `CommandResult`: a Python object that is either
a string (`""` means "display only"), one of the editing-action tuples
`("__BACKSPACE__", n)` / `("__ENTER__", 1)` / `("__TAB__", 1)` /
`("__ESC__", 1)`, or the `{"ok":…, "message":…}` dict produced by
`execute_command`. -/
inductive Output where
  | str (s : String)
  | backspace (n : Nat)
  | enter
  | tab
  | esc
  | cmdOutcome (ok : Bool) (message : String)
  deriving DecidableEq

/-- Is the output a Python `str`? (`isinstance(out, str)`). -/
def Output.isStr : Output → Bool
  | .str _ => true
  | _ => false

/-- `CommandResult` dataclass. -/
structure CommandResult where
  handled : Bool
  display_text : String
  output : Output
  deriving DecidableEq

/-- Mutable state of `CommandProcessor`: the pause flag and the history
deque (newest entry at the tail, as with `deque.append` / `deque.pop`). -/
structure CommandProcessor where
  paused : Bool
  history : List String
  deriving DecidableEq

/-- The alias table, in Python dict insertion order. -/
def aliasTable : List (String × String) :=
  [("豆号", "逗号"), ("都好", "逗号"), ("据号", "句号"), ("聚好", "句号"), ("句点", "句号")]

/-- The punctuation table, in Python dict insertion order. -/
def puncTable : List (String × String) :=
  [("逗号", "，"), ("句号", "。"), ("问号", "？"), ("感叹号", "！"),
   ("冒号", "："), ("分号", "；"), ("顿号", "、")]

/-- `CommandProcessor.normalize`: strip, then apply every alias
substitution in table order. -/
def normalize (text : String) : String :=
  aliasTable.foldl (fun t kv => pyReplace t kv.1 kv.2) (pyStrip text)

/-- `text in self.punc_map` / `self.punc_map[text]`. -/
def lookupPunc (text : String) : Option String :=
  (puncTable.find? fun kv => kv.1 = text).map (·.2)

/-- Decimal value of an ASCII digit run. -/
def digitsToNat (ds : List Char) : Nat :=
  ds.foldl (fun a c => a * 10 + (c.toNat - '0'.toNat)) 0

/-- Match the regex `(删除|退格)\s*(\d+)\s*(个字|次)?` anchored at the head
of `cs`, returning the value of group 2 (the maximal digit run): the
trailing optional groups never affect success or group 2. -/
def matchDeleteAt (cs : List Char) : Option Nat :=
  let del := "删除".data
  let bck := "退格".data
  let rest? : Option (List Char) :=
    if del.isPrefixOf cs then some (cs.drop del.length)
    else if bck.isPrefixOf cs then some (cs.drop bck.length)
    else none
  match rest? with
  | none => none
  | some rest =>
    let ds := (rest.dropWhile Char.isWhitespace).takeWhile Char.isDigit
    if ds = [] then none else some (digitsToNat ds)

/-- `re.search`: try `matchDeleteAt` at every position, leftmost first. -/
def searchDelete : List Char → Option Nat
  | [] => none
  | c :: cs =>
    match matchDeleteAt (c :: cs) with
    | some n => some n
    | none => searchDelete cs

/-- `CommandProcessor.parse_delete_n`. -/
def parse_delete_n (text : String) : Option Nat :=
  searchDelete text.data

def pausePhrases : List String := ["暂停输入", "暂停", "停止输入"]
def resumePhrases : List String := ["继续输入", "继续", "恢复输入"]
def enterPhrases : List String :=
  ["换行", "回车", "下一行", "enter", "ENTER", "回车键", "enter键", "Enter"]
def tabPhrases : List String := ["tab", "TAB", "制表符", "制表", "tab键", "TAB键", "Tab"]
def escPhrases : List String := ["esc", "ESC", "escape", "ESC键", "esc键", "Escape"]
def undoPhrases : List String := ["删除上一句", "撤回上一句", "撤销上一句", "删掉上一句"]
def clearPhrases : List String := ["清空", "清除全部", "全部删除"]

/-- `CommandProcessor.handle(raw_text)`: returns the `CommandResult` and
the successor processor state. -/
def CommandProcessor.handle (p : CommandProcessor) (raw_text : String) :
    CommandResult × CommandProcessor :=
  let text := normalize raw_text
  if text ∈ pausePhrases then
    (⟨true, "⏸ 已暂停输入", .str ""⟩, { p with paused := true })
  else if text ∈ resumePhrases then
    (⟨true, "▶️ 已恢复输入", .str ""⟩, { p with paused := false })
  else if p.paused then
    (⟨true, "⏸(暂停中) " ++ raw_text, .str ""⟩, p)
  else if text ∈ enterPhrases then
    (⟨true, "↩️ 换行", .enter⟩, p)
  else if text ∈ tabPhrases then
    (⟨true, "↹ TAB", .tab⟩, p)
  else if text ∈ escPhrases then
    (⟨true, "⎋ ESC", .esc⟩, p)
  else
    match lookupPunc text with
    | some sym => (⟨true, "⌨️ " ++ text, .str sym⟩, p)
    | none =>
      if text ∈ undoPhrases then
        match p.history.getLast? with
        | none => (⟨true, "⚠️ 没有可删除的内容", .str ""⟩, p)
        | some last =>
          (⟨true, "⌫ 删除上一句：" ++ last, .backspace last.length⟩,
           { p with history := p.history.dropLast })
      else
        match parse_delete_n text with
        | some n => (⟨true, "⌫ 删除 " ++ toString n ++ " 个字", .backspace n⟩, p)
        | none =>
          if text ∈ clearPhrases then
            (⟨true, "🧹 清空", .backspace CLEAR_BACKSPACE_MAX⟩, p)
          else
            (⟨false, raw_text, .str raw_text⟩, p)

/-- `out[:4000]`. -/
def truncate4000 (s : String) : String :=
  if s.length > 4000 then ⟨s.data.take 4000⟩ else s

/-- `deque(maxlen=300).append`: append at the tail, evicting from the
front when the bound is exceeded. -/
def dequeAppend (h : List String) (s : String) : List String :=
  let h' := h ++ [s]
  h'.drop (h'.length - HISTORY_MAX_LEN)

/-- `CommandProcessor.record_output`. -/
def CommandProcessor.record_output (p : CommandProcessor) (out : String) :
    CommandProcessor :=
  if out ≠ "" ∧ out ≠ "\n" then
    { p with history := dequeAppend p.history (truncate4000 out) }
  else p

/-- Observable side effects of the service: OS input injection, desktop
notifications and the dedup log line. -/
inductive Effect where
  | typeText (s : String)
  | backspaceKeys (n : Nat)
  | pressEnter
  | pressTab
  | pressEsc
  | notify (title msg : String)
  | logSkip (text : String)
  deriving DecidableEq

/-- Does the effect synthesize OS keyboard input? -/
def Effect.isInjection : Effect → Bool
  | .typeText _ => true
  | .backspaceKeys _ => true
  | .pressEnter => true
  | .pressTab => true
  | .pressEsc => true
  | _ => false

/-- Some effect in the list injects input. -/
def injects (effs : List Effect) : Bool :=
  effs.any Effect.isInjection

/-- `execute_output(out)`: dispatch one result output to the injector
(`backspace(n)` emits nothing when `n = 0`; an empty string and the
outcome dict emit nothing). -/
def execute_output : Output → List Effect
  | .str s => if s = "" then [] else [.typeText s]
  | .backspace n => if n = 0 then [] else [.backspaceKeys n]
  | .enter => [.pressEnter]
  | .tab => [.pressTab]
  | .esc => [.pressEsc]
  | .cmdOutcome _ _ => []

/-- State of `InputService`: the processor plus the dedup slot
`(_last_msg, _last_time)`. -/
structure InputService where
  processor : CommandProcessor
  last_msg : String
  last_time : ℚ
  deriving DecidableEq

/-- Fresh service state (`_last_msg = ""`, `_last_time = 0.0`). -/
def InputService.init : InputService := ⟨⟨false, []⟩, "", 0⟩

/-- `InputService._server_dedup`: report a duplicate (and leave the slot
alone), or store the current text and time. -/
def InputService.server_dedup (s : InputService) (text : String) (now : ℚ) :
    Bool × InputService :=
  if text = s.last_msg ∧ now - s.last_time < SERVER_DEDUP_WINDOW_SEC then
    (true, s)
  else
    (false, { s with last_msg := text, last_time := now })

/-- The conditional history-recording step of `handle_text`:
`if not result.handled and isinstance(result.output, str): record_output`. -/
def recordAfter (r : CommandResult) (p : CommandProcessor) : CommandProcessor :=
  match r.output with
  | .str t => if r.handled = false then p.record_output t else p
  | _ => p

/-- Body of `handle_text` after the dedup gate (time no longer matters):
the `__TEST_INJECT__` diagnostic bypass, then the interpreter, then
dispatch and conditional recording. -/
def afterDedup (p : CommandProcessor) (text : String) :
    CommandProcessor × List Effect :=
  if text = "__TEST_INJECT__" then
    (p, [.notify "测试注入" "请将鼠标放在记事本输入区，正在注入测试文本…",
         .typeText TEST_INJECT_TEXT, .pressEnter,
         .typeText "✅ 如果你看到这行文字，说明 SendInput 注入成功！", .pressEnter,
         .notify "测试注入成功" "请查看记事本是否出现两行测试文本。"])
  else if (p.handle text).1.output = .str "" then
    ((p.handle text).2, [.notify "指令执行" (p.handle text).1.display_text])
  else
    (recordAfter (p.handle text).1 (p.handle text).2,
     execute_output (p.handle text).1.output)

/-- `InputService.handle_text(text)` at wall-clock time `now`: strip,
dedup (updating the slot exactly when not suppressed), then `afterDedup`. -/
def InputService.handle_text (s : InputService) (raw : String) (now : ℚ) :
    InputService × List Effect :=
  let text := pyStrip raw
  if text = "" then (s, [])
  else if text = s.last_msg ∧ now - s.last_time < SERVER_DEDUP_WINDOW_SEC then
    (s, [.logSkip text])
  else
    let pe := afterDedup s.processor text
    (⟨pe.1, text, now⟩, pe.2)

/-! ### The command-execution channel (`execute_command`) -/

/-- The `command` entry of a configured command: a string, a list, or
anything else (absent / other JSON value). -/
inductive CmdField where
  | str (s : String)
  | list (xs : List String)
  | absent
  deriving DecidableEq

/-- One externally configured command (`match-string`, `command`, `args`);
`matchString` is already `cmd.get("match-string") or ""`, and `args = none`
models a non-list `args` entry. -/
structure ConfiguredCommand where
  matchString : String
  command : CmdField
  args : Option (List String)
  deriving DecidableEq

/-- Result of `subprocess.run`: either a completed process with an exit
code and stderr text, or a launch exception. -/
inductive RunResult where
  | completed (returncode : Int) (stderr : String)
  | raised (msg : String)

/-- `shlex` default whitespace. -/
def shlexWhitespaceChars : List Char := [' ', '\t', '\r', '\n']

/-- `shlex` quote characters (double and single quote). -/
def isShQuote (c : Char) : Bool := c = '"' ∨ c.toNat = 39

/-- Lexer state of `shlex` in non-POSIX whitespace-split mode. -/
inductive ShState where
  | between
  | word
  | quoted (q : Char)

/-- `shlex.split(s, posix=False)` core loop: whitespace separates tokens,
a quote opening a token swallows everything up to the matching quote
(quotes kept), a quote inside a word is an ordinary character, and end of
input inside a quote raises `ValueError("No closing quotation")`. -/
def shlexRun : List Char → ShState → List Char → List String →
    Except String (List String)
  | [], .between, _, acc => .ok acc
  | [], .word, tok, acc => .ok (acc ++ [⟨tok⟩])
  | [], .quoted _, _, _ => .error "No closing quotation"
  | c :: cs, .between, _, acc =>
    if c ∈ shlexWhitespaceChars then shlexRun cs .between [] acc
    else if isShQuote c then shlexRun cs (.quoted c) [c] acc
    else shlexRun cs .word [c] acc
  | c :: cs, .word, tok, acc =>
    if c ∈ shlexWhitespaceChars then shlexRun cs .between [] (acc ++ [⟨tok⟩])
    else shlexRun cs .word (tok ++ [c]) acc
  | c :: cs, .quoted q, tok, acc =>
    if c = q then shlexRun cs .between [] (acc ++ [⟨tok ++ [c]⟩])
    else shlexRun cs (.quoted q) (tok ++ [c]) acc

/-- `shlex.split(s, posix=False)`. -/
def shlexSplitNonPosix (s : String) : Except String (List String) :=
  shlexRun s.data .between [] []

/-- `_build_command_args(command, args)`; tokenization of a non-blank
command string can raise, which is propagated. -/
def build_command_args (command : CmdField) (args : Option (List String)) :
    Except String (List String) :=
  let base : Except String (List String) :=
    match command with
    | .str s => if pyStrip s ≠ "" then shlexSplitNonPosix s else .ok []
    | .list xs => .ok (xs.filter fun x => pyStrip x ≠ "")
    | .absent => .ok []
  match base with
  | .error e => .error e
  | .ok parts =>
    match args with
    | some a => .ok (parts ++ a.filter fun x => pyStrip x ≠ "")
    | none => .ok parts

/-- `_match_command(text)`: first configured command whose non-blank
stripped `match-string` equals the stripped text. -/
def match_command (text : String) (commands : List ConfiguredCommand) :
    Option ConfiguredCommand :=
  let t := pyStrip text
  if t = "" then none
  else commands.find? fun cmd =>
    (!(pyStrip cmd.matchString == "")) && (pyStrip cmd.matchString == t)

/-- `execute_command(text)` with the external process modelled by the
oracle `run`.  `Except.error` models an exception escaping the function
(the `shlex` tokenization runs outside the `try` block). -/
def execute_command (commands : List ConfiguredCommand)
    (run : List String → RunResult) (text : String) :
    Except String CommandResult :=
  match match_command text commands with
  | none =>
    .ok ⟨true, "未找到匹配指令：" ++ text, .cmdOutcome false "未找到匹配指令"⟩
  | some cmd =>
    match build_command_args cmd.command cmd.args with
    | .error e => .error e
    | .ok args =>
      if args = [] then
        .ok ⟨true, "命令配置错误：" ++ text, .cmdOutcome false "命令配置错误"⟩
      else
        match run args with
        | .completed rc stderr =>
          let ok := rc == 0
          let st := pyStrip stderr
          let msg :=
            if ok then "指令执行成功：" ++ text
            else
              let m := "指令执行失败：" ++ text ++ "（exit " ++ toString rc ++ "）"
              if st ≠ "" then m ++ " - " ++ st else m
          .ok ⟨true, msg, .cmdOutcome ok msg⟩
        | .raised e =>
          .ok ⟨true, "指令执行异常：" ++ text ++ " - " ++ e,
               .cmdOutcome false ("指令执行异常：" ++ e)⟩

/-! ### Auxiliary predicates -/

/-- The text (already normalized) matches none of the phrase sets checked
before the punctuation lookup. -/
def notEarlier (t : String) : Prop :=
  t ∉ pausePhrases ∧ t ∉ resumePhrases ∧ t ∉ enterPhrases ∧
  t ∉ tabPhrases ∧ t ∉ escPhrases

/-- The text falls through every interpreter branch: it is handled as
unhandled free text (when not paused). -/
def freeTextCond (t : String) : Prop :=
  notEarlier (normalize t) ∧ lookupPunc (normalize t) = none ∧
  normalize t ∉ undoPhrases ∧ parse_delete_n (normalize t) = none ∧
  normalize t ∉ clearPhrases

instance : DecidablePred notEarlier := fun t => by
  unfold notEarlier; infer_instance

instance : DecidablePred freeTextCond := fun t => by
  unfold freeTextCond; infer_instance

/-- History invariant: at most 300 entries, each at most 4000 chars. -/
def HistInv (p : CommandProcessor) : Prop :=
  p.history.length ≤ HISTORY_MAX_LEN ∧ ∀ x ∈ p.history, x.length ≤ 4000

instance : DecidablePred HistInv := fun p => by
  unfold HistInv; infer_instance

/-! ### Branch lemmas for `CommandProcessor.handle` -/

theorem handle_paused (p : CommandProcessor) (t : String)
    (hp : p.paused = true)
    (h1 : normalize t ∉ pausePhrases) (h2 : normalize t ∉ resumePhrases) :
    p.handle t = (⟨true, "⏸(暂停中) " ++ t, .str ""⟩, p) := by
  simp [CommandProcessor.handle, hp, h1, h2]

theorem handle_free (p : CommandProcessor) (t : String)
    (hp : p.paused = false) (h : freeTextCond t) :
    p.handle t = (⟨false, t, .str t⟩, p) := by
  obtain ⟨⟨h1, h2, h3, h4, h5⟩, h6, h7, h8, h9⟩ := h
  simp [CommandProcessor.handle, hp, h1, h2, h3, h4, h5, h6, h7, h8, h9]

theorem handle_punc (p : CommandProcessor) (t sym : String)
    (hp : p.paused = false) (hne : notEarlier (normalize t))
    (hsym : lookupPunc (normalize t) = some sym) :
    p.handle t = (⟨true, "⌨️ " ++ normalize t, .str sym⟩, p) := by
  obtain ⟨h1, h2, h3, h4, h5⟩ := hne
  simp [CommandProcessor.handle, hp, h1, h2, h3, h4, h5, hsym]

theorem handle_deleteN (p : CommandProcessor) (t : String) (n : Nat)
    (hp : p.paused = false) (hne : notEarlier (normalize t))
    (hpunc : lookupPunc (normalize t) = none)
    (hundo : normalize t ∉ undoPhrases)
    (hparse : parse_delete_n (normalize t) = some n) :
    p.handle t = (⟨true, "⌫ 删除 " ++ toString n ++ " 个字", .backspace n⟩, p) := by
  obtain ⟨h1, h2, h3, h4, h5⟩ := hne
  simp [CommandProcessor.handle, hp, h1, h2, h3, h4, h5, hpunc, hundo, hparse]

theorem handle_undo_empty (p : CommandProcessor) (t : String)
    (hp : p.paused = false) (hne : notEarlier (normalize t))
    (hpunc : lookupPunc (normalize t) = none)
    (hundo : normalize t ∈ undoPhrases) (hh : p.history = []) :
    p.handle t = (⟨true, "⚠️ 没有可删除的内容", .str ""⟩, p) := by
  obtain ⟨h1, h2, h3, h4, h5⟩ := hne
  simp [CommandProcessor.handle, hp, h1, h2, h3, h4, h5, hpunc, hundo, hh]

/-- Every interpreter step either keeps the history or pops its tail. -/
theorem handle_history_cases (p : CommandProcessor) (t : String) :
    (p.handle t).2.history = p.history ∨
    (p.handle t).2.history = p.history.dropLast := by
  simp only [CommandProcessor.handle]
  repeat' split
  all_goals simp

/-- `record_output` never touches the pause flag. -/
theorem record_output_paused (p : CommandProcessor) (o : String) :
    (p.record_output o).paused = p.paused := by
  unfold CommandProcessor.record_output
  split <;> rfl

/-! ### Step lemmas for `InputService.handle_text` -/

theorem handle_text_of_empty (s : InputService) (raw : String) (now : ℚ)
    (h : pyStrip raw = "") : s.handle_text raw now = (s, []) := by
  simp [InputService.handle_text, h]

theorem handle_text_suppressed (s : InputService) (raw : String) (now : ℚ)
    (hne : pyStrip raw ≠ "") (heq : pyStrip raw = s.last_msg)
    (ht : now - s.last_time < SERVER_DEDUP_WINDOW_SEC) :
    s.handle_text raw now = (s, [.logSkip (pyStrip raw)]) := by
  simp only [InputService.handle_text]
  rw [if_neg hne, if_pos ⟨heq, ht⟩]

theorem handle_text_go (s : InputService) (raw : String) (now : ℚ)
    (hne : pyStrip raw ≠ "")
    (h : ¬(pyStrip raw = s.last_msg ∧ now - s.last_time < SERVER_DEDUP_WINDOW_SEC)) :
    s.handle_text raw now =
      (⟨(afterDedup s.processor (pyStrip raw)).1, pyStrip raw, now⟩,
       (afterDedup s.processor (pyStrip raw)).2) := by
  simp [InputService.handle_text, hne, h]

/-- `afterDedup` on unhandled free text: inject it and record it. -/
theorem afterDedup_free (p : CommandProcessor) (text : String)
    (hp : p.paused = false) (hf : freeTextCond text) (hne : text ≠ "")
    (hsent : text ≠ "__TEST_INJECT__") :
    afterDedup p text = (p.record_output text, [.typeText text]) := by
  have hh := handle_free p text hp hf
  unfold afterDedup
  rw [if_neg hsent, hh]
  rw [if_neg (show ¬((⟨false, text, .str text⟩ : CommandResult).output = .str "")
        by simpa using hne)]
  simp [recordAfter, execute_output, hne]

/-! ### The history invariant -/

theorem truncate4000_length (s : String) : (truncate4000 s).length ≤ 4000 := by
  unfold truncate4000
  split
  · show (String.mk (s.data.take 4000)).length ≤ 4000
    have he : (String.mk (s.data.take 4000)).length = (s.data.take 4000).length := rfl
    rw [he, List.length_take]
    omega
  · omega

theorem dequeAppend_length (h : List String) (s : String) :
    (dequeAppend h s).length ≤ HISTORY_MAX_LEN := by
  simp only [dequeAppend, List.length_drop, List.length_append,
    List.length_cons, HISTORY_MAX_LEN]
  omega

theorem mem_dequeAppend (h : List String) (s x : String)
    (hx : x ∈ dequeAppend h s) : x ∈ h ∨ x = s := by
  simp only [dequeAppend] at hx
  have hx' := List.mem_of_mem_drop hx
  simpa using hx'

theorem record_output_HistInv (p : CommandProcessor) (o : String)
    (h : HistInv p) : HistInv (p.record_output o) := by
  obtain ⟨hl, hm⟩ := h
  unfold HistInv CommandProcessor.record_output
  split
  · refine ⟨dequeAppend_length _ _, ?_⟩
    intro x hx
    rcases mem_dequeAppend _ _ _ hx with hx' | rfl
    · exact hm x hx'
    · exact truncate4000_length o
  · exact ⟨hl, hm⟩

theorem handle_HistInv (p : CommandProcessor) (t : String) (h : HistInv p) :
    HistInv ((p.handle t).2) := by
  obtain ⟨hl, hm⟩ := h
  unfold HistInv
  rcases handle_history_cases p t with he | he <;> rw [he]
  · exact ⟨hl, hm⟩
  · refine ⟨?_, ?_⟩
    · have := List.length_dropLast p.history
      omega
    · intro x hx
      exact hm x (List.mem_of_mem_dropLast hx)

theorem recordAfter_HistInv (r : CommandResult) (p : CommandProcessor)
    (h : HistInv p) : HistInv (recordAfter r p) := by
  cases hv : r.output with
  | str t =>
    simp only [recordAfter, hv]
    split
    · exact record_output_HistInv _ _ h
    · exact h
  | backspace n => simp only [recordAfter, hv]; exact h
  | enter => simp only [recordAfter, hv]; exact h
  | tab => simp only [recordAfter, hv]; exact h
  | esc => simp only [recordAfter, hv]; exact h
  | cmdOutcome ok m => simp only [recordAfter, hv]; exact h

theorem afterDedup_HistInv (p : CommandProcessor) (text : String)
    (h : HistInv p) : HistInv (afterDedup p text).1 := by
  have hh := handle_HistInv p text h
  simp only [afterDedup]
  split
  · exact h
  · split
    · exact hh
    · exact recordAfter_HistInv _ _ hh

theorem handle_text_HistInv (s : InputService) (raw : String) (now : ℚ)
    (h : HistInv s.processor) :
    HistInv ((s.handle_text raw now).1.processor) := by
  simp only [InputService.handle_text]
  split
  · exact h
  · split
    · exact h
    · exact afterDedup_HistInv _ _ h

/-- Absorption of the 300-bound: re-bounding after appending more entries
is the same as bounding the full concatenation once. -/
theorem takeRightAbsorb (n : Nat) (a b : List String) :
    ((a.drop (a.length - n) ++ b).drop
      ((a.drop (a.length - n) ++ b).length - n)) =
    ((a ++ b).drop ((a ++ b).length - n)) := by
  rw [List.drop_append_eq_append_drop, List.drop_append_eq_append_drop,
    List.drop_drop]
  congr 1
  · congr 1
    simp only [List.length_append, List.length_drop]
    omega
  · congr 1
    simp only [List.length_append, List.length_drop]
    omega

/-- Folding `record_output` over valid entries keeps exactly the most
recent 300 of everything ever pushed. -/
theorem foldRecord (l : List String) (p : CommandProcessor)
    (hval : ∀ x ∈ l, x ≠ "" ∧ x ≠ "\n" ∧ x.length ≤ 4000)
    (hp : p.history.length ≤ HISTORY_MAX_LEN) :
    (List.foldl CommandProcessor.record_output p l).history =
      (p.history ++ l).drop ((p.history ++ l).length - HISTORY_MAX_LEN) := by
  induction l generalizing p with
  | nil =>
    have h0 : p.history.length - HISTORY_MAX_LEN = 0 := by omega
    simp [h0]
  | cons x xs ih =>
    have hx := hval x (List.mem_cons_self x xs)
    have ht : truncate4000 x = x := by
      unfold truncate4000
      rw [if_neg (by omega)]
    have hrec : p.record_output x =
        { p with history := dequeAppend p.history x } := by
      unfold CommandProcessor.record_output
      rw [if_pos ⟨hx.1, hx.2.1⟩, ht]
    rw [List.foldl_cons, hrec,
      ih _ (fun y hy => hval y (List.mem_cons_of_mem _ hy)) (dequeAppend_length _ _)]
    have hsplit : p.history ++ x :: xs = (p.history ++ [x]) ++ xs := by simp
    rw [hsplit]
    simp only [dequeAppend]
    exact takeRightAbsorb HISTORY_MAX_LEN (p.history ++ [x]) xs

/-! ### Search and strip facts -/

theorem searchDelete_isSome (cs : List Char)
    (h : ∃ pre suf : List Char, cs = pre ++ suf ∧ (matchDeleteAt suf).isSome = true) :
    (searchDelete cs).isSome = true := by
  obtain ⟨pre, suf, rfl, hm⟩ := h
  induction pre with
  | nil =>
    simp only [List.nil_append]
    cases suf with
    | nil => exact absurd hm (by decide)
    | cons c cs' =>
      unfold searchDelete
      cases hmm : matchDeleteAt (c :: cs') with
      | some n => simp
      | none => rw [hmm] at hm; exact absurd hm (by decide)
  | cons a pre' ih =>
    simp only [List.cons_append]
    unfold searchDelete
    cases hmm : matchDeleteAt (a :: (pre' ++ suf)) with
    | some n => simp
    | none => simpa using ih

theorem dropWhile_head_false {α : Type} (p : α → Bool) (l : List α) (a : α)
    (t : List α) (h : l.dropWhile p = a :: t) : p a = false := by
  induction l with
  | nil => simp at h
  | cons b bs ih =>
    rw [List.dropWhile_cons] at h
    split at h
    · exact ih h
    · rename_i hb
      cases h
      simpa using hb

/-- A stripped string is never the bare line break. -/
theorem pyStrip_ne_newline (raw : String) : pyStrip raw ≠ "\n" := by
  unfold pyStrip
  intro h
  have hd := congrArg String.data h
  simp only at hd
  have hrev : (raw.data.dropWhile Char.isWhitespace).reverse.dropWhile
      Char.isWhitespace = ['\n'] := by
    have := congrArg List.reverse hd
    simpa using this
  have hw := dropWhile_head_false Char.isWhitespace _ _ _ hrev
  exact absurd hw (by decide)

/-- Component form of `handle_text_go`. -/
theorem handle_text_go_state (s : InputService) (raw : String) (now : ℚ)
    (hne : pyStrip raw ≠ "")
    (h : ¬(pyStrip raw = s.last_msg ∧ now - s.last_time < SERVER_DEDUP_WINDOW_SEC)) :
    (s.handle_text raw now).1 =
      ⟨(afterDedup s.processor (pyStrip raw)).1, pyStrip raw, now⟩ ∧
    (s.handle_text raw now).2 = (afterDedup s.processor (pyStrip raw)).2 := by
  rw [handle_text_go s raw now hne h]
  exact ⟨rfl, rfl⟩

/-- Every symbol produced by the punctuation lookup is non-empty. -/
theorem lookupPunc_ne_empty (t sym : String) (h : lookupPunc t = some sym) :
    sym ≠ "" := by
  unfold lookupPunc at h
  cases hf : puncTable.find? (fun kv => kv.1 = t) with
  | none => rw [hf] at h; simp at h
  | some kv =>
    rw [hf] at h
    have h2 : kv.2 = sym := by simpa using h
    have hmem := List.mem_of_find?_eq_some hf
    rw [← h2]
    fin_cases hmem <;> decide

/-! ### Claims -/

/-- C2: after a pause phrase has set the Paused state, every interpreter
call with text that is neither a pause nor a resume phrase returns an
Empty (display-only) output and leaves the processor untouched; at the
service level, while paused, such texts cause no injection (the
interpreter-bypassing diagnostic sentinel aside) and never mutate the
History, until a resume phrase flips the flag back. -/
theorem pause_gates_all_noncontrol_text :
    (∀ (p : CommandProcessor) (t : String), p.paused = true →
       normalize t ∉ pausePhrases → normalize t ∉ resumePhrases →
       p.handle t = (⟨true, "⏸(暂停中) " ++ t, .str ""⟩, p)) ∧
    (∀ (s : InputService) (raw : String) (now : ℚ),
       s.processor.paused = true →
       normalize (pyStrip raw) ∉ pausePhrases →
       normalize (pyStrip raw) ∉ resumePhrases →
       (s.handle_text raw now).1.processor.paused = true ∧
       (s.handle_text raw now).1.processor.history = s.processor.history ∧
       (pyStrip raw ≠ "__TEST_INJECT__" →
         injects (s.handle_text raw now).2 = false)) := by
  constructor
  · intro p t hp h1 h2
    exact handle_paused p t hp h1 h2
  · intro s raw now hp h1 h2
    by_cases he : pyStrip raw = ""
    · rw [handle_text_of_empty s raw now he]
      exact ⟨hp, rfl, fun _ => rfl⟩
    · by_cases hs : pyStrip raw = s.last_msg ∧
          now - s.last_time < SERVER_DEDUP_WINDOW_SEC
      · rw [handle_text_suppressed s raw now he hs.1 hs.2]
        exact ⟨hp, rfl, fun _ => rfl⟩
      · obtain ⟨e1, e2⟩ := handle_text_go_state s raw now he hs
        rw [e1, e2]
        by_cases hti : pyStrip raw = "__TEST_INJECT__"
        · simp only [afterDedup]
          rw [if_pos hti]
          exact ⟨hp, rfl, fun hc => absurd hti hc⟩
        · have hh := handle_paused s.processor (pyStrip raw) hp h1 h2
          simp only [afterDedup]
          rw [if_neg hti, hh, if_pos rfl]
          exact ⟨hp, rfl, fun _ => rfl⟩

/-- C2 witness: in a paused state, a plain text is echoed as display-only
with Empty output and no state change. -/
theorem pause_gates_all_noncontrol_text_witness :
    CommandProcessor.handle ⟨true, []⟩ "hello" =
      (⟨true, "⏸(暂停中) " ++ "hello", .str ""⟩, ⟨true, []⟩) :=
  pause_gates_all_noncontrol_text.1 ⟨true, []⟩ "hello" rfl (by decide) (by decide)

/-- C3: after free text "hello" was injected and recorded, an undo phrase
yields `Backspace 5` and the History no longer contains "hello"; and from
any Active state with an empty History, an undo phrase produces only the
display warning with Empty output and leaves the state unchanged. -/
theorem undo_pops_last_or_warns :
    ∀ (p : CommandProcessor) (u : String),
      p.paused = false → p.history = [] → u ∈ undoPhrases →
      (p.handle u = (⟨true, "⚠️ 没有可删除的内容", .str ""⟩, p)) ∧
      ((InputService.init.handle_text "hello" 0).1.processor.history = ["hello"] ∧
       ((InputService.init.handle_text "hello" 0).1.processor.handle
           "删除上一句").1.output = .backspace 5 ∧
       ((InputService.init.handle_text "hello" 0).1.handle_text
           "删除上一句" 1).2 = [.backspaceKeys 5] ∧
       ((InputService.init.handle_text "hello" 0).1.handle_text
           "删除上一句" 1).1.processor.history = []) := by
  intro p u hp hh hu
  constructor
  · have hu' : u = "删除上一句" ∨ u = "撤回上一句" ∨ u = "撤销上一句" ∨
        u = "删掉上一句" := by simpa [undoPhrases] using hu
    rcases hu' with rfl | rfl | rfl | rfl <;>
      exact handle_undo_empty p _ hp (by decide) (by decide) (by decide) hh
  · exact ⟨by decide, by decide, by decide, by decide⟩

/-- C3 witness: the empty-History branch at a concrete Active state. -/
theorem undo_pops_last_or_warns_witness :
    CommandProcessor.handle ⟨false, []⟩ "删除上一句" =
      (⟨true, "⚠️ 没有可删除的内容", .str ""⟩, ⟨false, []⟩) :=
  (undo_pops_last_or_warns ⟨false, []⟩ "删除上一句" rfl rfl (by decide)).1

/-- C4: the History invariant (at most 300 entries, each at most 4000
characters) holds initially and is preserved by every operation touching
the History — the interpreter step, `record_output` and the full service
step — and pushing 301 valid strings onto an empty History retains
exactly the last 300, the oldest being evicted first. -/
theorem history_bounded_and_fifo :
    (∀ (p : CommandProcessor) (t : String), HistInv p →
        HistInv (p.handle t).2 ∧ HistInv (p.record_output t)) ∧
    (∀ (s : InputService) (raw : String) (now : ℚ), HistInv s.processor →
        HistInv (s.handle_text raw now).1.processor) ∧
    HistInv ⟨false, []⟩ ∧
    (∀ l : List String, l.length = 301 →
        (∀ x ∈ l, x ≠ "" ∧ x ≠ "\n" ∧ x.length ≤ 4000) →
        (List.foldl CommandProcessor.record_output ⟨false, []⟩ l).history =
          l.drop 1) := by
  refine ⟨fun p t h => ⟨handle_HistInv p t h, record_output_HistInv p t h⟩,
          fun s raw now h => handle_text_HistInv s raw now h,
          by decide, ?_⟩
  intro l hlen hval
  have h2 := foldRecord l ⟨false, []⟩ hval (by decide)
  rw [h2]
  simp only [List.nil_append, List.length_nil]
  rw [hlen]
  norm_num [HISTORY_MAX_LEN]

/-- C4 witness: preservation at a concrete state and the 301-push
eviction at a concrete list. -/
theorem history_bounded_and_fifo_witness :
    HistInv (CommandProcessor.handle ⟨false, ["hello"]⟩ "删除上一句").2 ∧
    (List.foldl CommandProcessor.record_output ⟨false, []⟩
        (List.replicate 301 "a")).history = (List.replicate 301 "a").drop 1 :=
  ⟨(history_bounded_and_fifo.1 ⟨false, ["hello"]⟩ "删除上一句" (by decide)).1,
   history_bounded_and_fifo.2.2.2 (List.replicate 301 "a") (by simp)
     (fun x hx => by rw [List.eq_of_mem_replicate hx]; exact ⟨by decide, by decide, by decide⟩)⟩

/-- C7: in the Active state, "删除5个字" is parsed as the deletion of five
characters (`Backspace 5`), while "删除" without digits falls through to
the unhandled free-text fallback and is typed, not executed. -/
theorem delete_n_parses_digits_only :
    ∀ p : CommandProcessor, p.paused = false →
      p.handle "删除5个字" = (⟨true, "⌫ 删除 5 个字", .backspace 5⟩, p) ∧
      p.handle "删除" = (⟨false, "删除", .str "删除"⟩, p) := by
  intro p hp
  constructor
  · have hstr : "⌫ 删除 " ++ toString 5 ++ " 个字" = "⌫ 删除 5 个字" := by decide
    rw [handle_deleteN p "删除5个字" 5 hp (by decide) (by decide) (by decide)
      (by decide), hstr]
  · exact handle_free p "删除" hp (by decide)

/-- C7 witness: both parses at the initial processor state. -/
theorem delete_n_parses_digits_only_witness :
    CommandProcessor.handle ⟨false, []⟩ "删除5个字" =
      (⟨true, "⌫ 删除 5 个字", .backspace 5⟩, ⟨false, []⟩) :=
  (delete_n_parses_digits_only ⟨false, []⟩ rfl).1

/-- C10: the delete-N pattern is found by substring search — any Active
text that matches no earlier phrase set but contains "删除" or "退格"
followed (after optional whitespace) by digits anywhere inside it is
turned into `Backspace n`, with `n` read at the leftmost occurrence; in
particular "请删除3个字谢谢" yields `Backspace 3` and is never typed. -/
theorem delete_n_matched_by_substring_search :
    ∀ (p : CommandProcessor) (t : String),
      p.paused = false → notEarlier (normalize t) →
      lookupPunc (normalize t) = none → normalize t ∉ undoPhrases →
      (∃ pre suf : List Char, (normalize t).data = pre ++ suf ∧
          (matchDeleteAt suf).isSome = true) →
      (∃ n : Nat, parse_delete_n (normalize t) = some n ∧
          p.handle t = (⟨true, "⌫ 删除 " ++ toString n ++ " 个字",
            .backspace n⟩, p)) ∧
      CommandProcessor.handle ⟨false, []⟩ "请删除3个字谢谢" =
        (⟨true, "⌫ 删除 3 个字", .backspace 3⟩, ⟨false, []⟩) := by
  intro p t hp hne hpunc hundo hex
  constructor
  · have hs : (searchDelete (normalize t).data).isSome = true :=
      searchDelete_isSome _ hex
    obtain ⟨n, hn⟩ := Option.isSome_iff_exists.mp hs
    exact ⟨n, hn, handle_deleteN p t n hp hne hpunc hundo hn⟩
  · decide

/-- C10 witness: the substring search fires inside "请删除3个字谢谢". -/
theorem delete_n_matched_by_substring_search_witness :
    ∃ n : Nat, parse_delete_n (normalize "请删除3个字谢谢") = some n ∧
      CommandProcessor.handle ⟨false, []⟩ "请删除3个字谢谢" =
        (⟨true, "⌫ 删除 " ++ toString n ++ " 个字", .backspace n⟩,
         ⟨false, []⟩) :=
  (delete_n_matched_by_substring_search ⟨false, []⟩ "请删除3个字谢谢" rfl
    (by decide) (by decide) (by decide)
    ⟨"请".data, "删除3个字谢谢".data, by decide, by decide⟩).1

/-- C1 counterexample: the claim fails as stated, because a suppressed
call does not refresh the stored timestamp.  From the initial state, call
"hello" at t=0 (stores the slot), at t=0.5 (suppressed, slot kept at 0)
and at t=1.3: the last two calls are two identical calls 0.8 s < 1.2 s
apart, yet the second of them injects, since 1.3 s have elapsed since the
stale stored timestamp. -/
theorem dedup_window_cex :
    ((13/10 : ℚ) - 1/2 < SERVER_DEDUP_WINDOW_SEC) ∧
    injects ((((InputService.init.handle_text "hello" 0).1.handle_text
      "hello" (1/2)).1.handle_text "hello" (13/10)).2) = true := by
  constructor
  · norm_num [SERVER_DEDUP_WINDOW_SEC]
  · have e1 : InputService.init.handle_text "hello" 0 =
        (⟨⟨false, ["hello"]⟩, "hello", 0⟩, [.typeText "hello"]) := by decide
    rw [e1]
    show injects (((⟨⟨false, ["hello"]⟩, "hello", 0⟩ : InputService).handle_text
      "hello" (1/2)).1.handle_text "hello" (13/10)).2 = true
    have e2 := handle_text_suppressed (⟨⟨false, ["hello"]⟩, "hello", 0⟩ :
        InputService) "hello" (1/2) (by decide) (by decide)
      (by show (1/2 : ℚ) - 0 < SERVER_DEDUP_WINDOW_SEC
          norm_num [SERVER_DEDUP_WINDOW_SEC])
    rw [e2]
    show injects ((⟨⟨false, ["hello"]⟩, "hello", 0⟩ : InputService).handle_text
      "hello" (13/10)).2 = true
    have e3 := handle_text_go (⟨⟨false, ["hello"]⟩, "hello", 0⟩ : InputService)
      "hello" (13/10) (by decide)
      (fun hc => absurd hc.2
        (by show ¬((13/10 : ℚ) - 0 < SERVER_DEDUP_WINDOW_SEC)
            norm_num [SERVER_DEDUP_WINDOW_SEC]))
    rw [e3]
    decide

/-- C1 (amended: provided the first of the two calls is not itself
suppressed — i.e. the slot does not already hold the same text with a
fresh timestamp): a second identical call less than 1.2 s later performs
no injection and changes nothing, returning before the interpreter. -/
theorem dedup_window_suppresses_second_call :
    ∀ (s : InputService) (T : String) (t1 t2 : ℚ),
      (pyStrip T = "" ∨
        ¬(pyStrip T = s.last_msg ∧ t1 - s.last_time < SERVER_DEDUP_WINDOW_SEC)) →
      t2 - t1 < SERVER_DEDUP_WINDOW_SEC →
      ((s.handle_text T t1).1.handle_text T t2).1 = (s.handle_text T t1).1 ∧
      injects ((s.handle_text T t1).1.handle_text T t2).2 = false := by
  intro s T t1 t2 hfirst hgap
  by_cases he : pyStrip T = ""
  · rw [handle_text_of_empty s T t1 he]
    show ((s.handle_text T t2).1 = s ∧ injects (s.handle_text T t2).2 = false)
    rw [handle_text_of_empty s T t2 he]
    exact ⟨rfl, rfl⟩
  · have hns := hfirst.resolve_left he
    have e2 : ((s.handle_text T t1).1.handle_text T t2) =
        ((s.handle_text T t1).1, [.logSkip (pyStrip T)]) := by
      obtain ⟨e1, _⟩ := handle_text_go_state s T t1 he hns
      apply handle_text_suppressed _ T t2 he
      · rw [e1]
      · rw [e1]
        exact hgap
    rw [e2]
    exact ⟨rfl, rfl⟩

/-- C1 witness: from the fresh initial state the second of two identical
calls 1 s apart is suppressed. -/
theorem dedup_window_suppresses_second_call_witness :
    ((InputService.init.handle_text "hello" 0).1.handle_text "hello" 1).1 =
      (InputService.init.handle_text "hello" 0).1 ∧
    injects ((InputService.init.handle_text "hello" 0).1.handle_text
      "hello" 1).2 = false :=
  dedup_window_suppresses_second_call InputService.init "hello" 0 1
    (Or.inr fun hc => absurd hc.1 (by decide))
    (by norm_num [SERVER_DEDUP_WINDOW_SEC])

/-- C5 counterexample: the injected punctuation symbol "，" (a non-empty
`TypeText` that is not a bare line break) is NOT pushed onto History,
because recording is restricted to unhandled results. -/
theorem injected_typetext_recording_cex :
    (InputService.init.handle_text "逗号" 0).2 = [.typeText "，"] ∧
    (InputService.init.handle_text "逗号" 0).1.processor.history = [] := by
  decide

/-- C5 (amended: only UNHANDLED free-text `TypeText` results are pushed
onto History after injection, truncated to 4000 characters; a handled
`TypeText` such as a punctuation symbol is injected but never recorded). -/
theorem injected_typetext_recording :
    (∀ (s : InputService) (raw : String) (now : ℚ),
       s.processor.paused = false → freeTextCond (pyStrip raw) →
       pyStrip raw ≠ "" → pyStrip raw ≠ "__TEST_INJECT__" →
       ¬(pyStrip raw = s.last_msg ∧ now - s.last_time < SERVER_DEDUP_WINDOW_SEC) →
       (s.handle_text raw now).2 = [.typeText (pyStrip raw)] ∧
       (s.handle_text raw now).1.processor.history =
         dequeAppend s.processor.history (truncate4000 (pyStrip raw))) ∧
    (∀ (s : InputService) (raw sym : String) (now : ℚ),
       s.processor.paused = false → notEarlier (normalize (pyStrip raw)) →
       lookupPunc (normalize (pyStrip raw)) = some sym →
       pyStrip raw ≠ "" → pyStrip raw ≠ "__TEST_INJECT__" →
       ¬(pyStrip raw = s.last_msg ∧ now - s.last_time < SERVER_DEDUP_WINDOW_SEC) →
       (s.handle_text raw now).2 = [.typeText sym] ∧
       (s.handle_text raw now).1.processor.history = s.processor.history) := by
  constructor
  · intro s raw now hp hf hne hsent hns
    obtain ⟨e1, e2⟩ := handle_text_go_state s raw now hne hns
    have ha := afterDedup_free s.processor (pyStrip raw) hp hf hne hsent
    constructor
    · rw [e2, ha]
    · rw [e1]
      show (afterDedup s.processor (pyStrip raw)).1.history = _
      rw [ha]
      show (s.processor.record_output (pyStrip raw)).history = _
      unfold CommandProcessor.record_output
      rw [if_pos ⟨hne, pyStrip_ne_newline raw⟩]
  · intro s raw sym now hp hnear hsym hne hsent hns
    have hsymne : sym ≠ "" := lookupPunc_ne_empty _ _ hsym
    have hh := handle_punc s.processor (pyStrip raw) sym hp hnear hsym
    have ha : afterDedup s.processor (pyStrip raw) =
        (s.processor, [.typeText sym]) := by
      unfold afterDedup
      rw [if_neg hsent, hh]
      rw [if_neg (show ¬((⟨true, "⌨️ " ++ normalize (pyStrip raw),
        .str sym⟩ : CommandResult).output = .str "") by simpa using hsymne)]
      simp [recordAfter, execute_output, hsymne]
    obtain ⟨e1, e2⟩ := handle_text_go_state s raw now hne hns
    constructor
    · rw [e2, ha]
    · rw [e1]
      show (afterDedup s.processor (pyStrip raw)).1.history = _
      rw [ha]

/-- C5 witness: free text "hi" is injected and recorded. -/
theorem injected_typetext_recording_witness :
    (InputService.init.handle_text "hi" 0).2 = [.typeText (pyStrip "hi")] ∧
    (InputService.init.handle_text "hi" 0).1.processor.history =
      dequeAppend InputService.init.processor.history
        (truncate4000 (pyStrip "hi")) :=
  injected_typetext_recording.1 InputService.init "hi" 0 rfl (by decide)
    (by decide) (by decide) (fun hc => absurd hc.1 (by decide))

/-- C6 counterexample: a suppressed call does NOT update the slot.  With
the slot holding ("a", 0), a duplicate call at t=0.5 reports suppression
but keeps the stored timestamp 0 instead of storing 0.5. -/
theorem dedup_slot_update_cex :
    ((⟨⟨false, []⟩, "a", 0⟩ : InputService).server_dedup "a" (1/2)).1 = true ∧
    ((⟨⟨false, []⟩, "a", 0⟩ : InputService).server_dedup "a" (1/2)).2.last_time
      = 0 ∧ (0 : ℚ) ≠ 1/2 := by
  have hc : ("a" : String) = (⟨⟨false, []⟩, "a", 0⟩ : InputService).last_msg ∧
      (1/2 : ℚ) - (⟨⟨false, []⟩, "a", 0⟩ : InputService).last_time <
        SERVER_DEDUP_WINDOW_SEC :=
    ⟨rfl, by show (1/2 : ℚ) - 0 < SERVER_DEDUP_WINDOW_SEC
             norm_num [SERVER_DEDUP_WINDOW_SEC]⟩
  unfold InputService.server_dedup
  rw [if_pos hc]
  exact ⟨rfl, rfl, by norm_num⟩

/-- C6 (amended: the slot is updated to the current text and time exactly
on the calls that report non-duplicate; a call that reports a duplicate
leaves the slot unchanged). -/
theorem dedup_slot_updated_iff_not_suppressed :
    ∀ (s : InputService) (text : String) (now : ℚ),
      ((s.server_dedup text now).1 = true → (s.server_dedup text now).2 = s) ∧
      ((s.server_dedup text now).1 = false →
        (s.server_dedup text now).2 = ⟨s.processor, text, now⟩) := by
  intro s text now
  unfold InputService.server_dedup
  split
  · exact ⟨fun _ => rfl, fun hc => Bool.noConfusion hc⟩
  · exact ⟨fun hc => Bool.noConfusion hc, fun _ => rfl⟩

/-- C6 witness: a non-duplicate call stores text and time. -/
theorem dedup_slot_updated_iff_not_suppressed_witness :
    (InputService.init.server_dedup "a" 0).2 = ⟨⟨false, []⟩, "a", 0⟩ :=
  (dedup_slot_updated_iff_not_suppressed InputService.init "a" 0).2 (by decide)

/-- C8 counterexample: two identical calls of "暂停" 2 s ≥ 1.2 s apart —
neither call performs any injection (the pause phrase yields Empty
output), refuting "both calls perform an injection" for arbitrary T. -/
theorem dedup_expiry_cex :
    SERVER_DEDUP_WINDOW_SEC ≤ (2 : ℚ) - 0 ∧
    injects (InputService.init.handle_text "暂停" 0).2 = false ∧
    injects ((InputService.init.handle_text "暂停" 0).1.handle_text
      "暂停" 2).2 = false := by
  refine ⟨by norm_num [SERVER_DEDUP_WINDOW_SEC], by decide, ?_⟩
  have e1 : InputService.init.handle_text "暂停" 0 =
      (⟨⟨true, []⟩, "暂停", 0⟩, [.notify "指令执行" "⏸ 已暂停输入"]) := by decide
  rw [e1]
  show injects ((⟨⟨true, []⟩, "暂停", 0⟩ : InputService).handle_text
    "暂停" 2).2 = false
  have e3 := handle_text_go (⟨⟨true, []⟩, "暂停", 0⟩ : InputService) "暂停" 2
    (by decide)
    (fun hc => absurd hc.2
      (by show ¬((2 : ℚ) - 0 < SERVER_DEDUP_WINDOW_SEC)
          norm_num [SERVER_DEDUP_WINDOW_SEC]))
  rw [e3]
  decide

/-- C8 (amended: with at least 1.2 s between two identical calls, the
second call is never suppressed by the dedup gate — for EVERY text whose
trim is non-empty, under only the first-call-not-suppressed proviso of
C1 — so the gate hands the text on to the rest of the pipeline; and in
particular, for texts handled as unhandled free text in the Active
state, both calls perform an injection). -/
theorem dedup_expiry_allows_both_injections :
    (∀ (s : InputService) (T : String) (t1 t2 : ℚ),
      (pyStrip T = "" ∨
        ¬(pyStrip T = s.last_msg ∧ t1 - s.last_time < SERVER_DEDUP_WINDOW_SEC)) →
      SERVER_DEDUP_WINDOW_SEC ≤ t2 - t1 →
      pyStrip T ≠ "" →
      ¬(pyStrip T = (s.handle_text T t1).1.last_msg ∧
         t2 - (s.handle_text T t1).1.last_time < SERVER_DEDUP_WINDOW_SEC) ∧
      (s.handle_text T t1).1.handle_text T t2 =
        (⟨(afterDedup (s.handle_text T t1).1.processor (pyStrip T)).1,
          pyStrip T, t2⟩,
         (afterDedup (s.handle_text T t1).1.processor (pyStrip T)).2)) ∧
    (∀ (s : InputService) (T : String) (t1 t2 : ℚ),
      s.processor.paused = false → freeTextCond (pyStrip T) →
      pyStrip T ≠ "" →
      ¬(pyStrip T = s.last_msg ∧ t1 - s.last_time < SERVER_DEDUP_WINDOW_SEC) →
      SERVER_DEDUP_WINDOW_SEC ≤ t2 - t1 →
      injects (s.handle_text T t1).2 = true ∧
      injects ((s.handle_text T t1).1.handle_text T t2).2 = true) := by
  constructor
  · intro s T t1 t2 hfirst hgap he
    have hns := hfirst.resolve_left he
    obtain ⟨e1, _⟩ := handle_text_go_state s T t1 he hns
    have hns2 : ¬(pyStrip T = (s.handle_text T t1).1.last_msg ∧
        t2 - (s.handle_text T t1).1.last_time < SERVER_DEDUP_WINDOW_SEC) := by
      rw [e1]
      exact fun hc => absurd hc.2 (not_lt.mpr hgap)
    exact ⟨hns2, handle_text_go (s.handle_text T t1).1 T t2 he hns2⟩
  · intro s T t1 t2 hp hf hne hns hgap
    obtain ⟨e1, e2⟩ := handle_text_go_state s T t1 hne hns
    have hns2 : ¬(pyStrip T = (s.handle_text T t1).1.last_msg ∧
        t2 - (s.handle_text T t1).1.last_time < SERVER_DEDUP_WINDOW_SEC) := by
      rw [e1]
      exact fun hc => absurd hc.2 (not_lt.mpr hgap)
    obtain ⟨e3, e4⟩ := handle_text_go_state (s.handle_text T t1).1 T t2 hne hns2
    have hproc : (s.handle_text T t1).1.processor =
        (afterDedup s.processor (pyStrip T)).1 := by rw [e1]
    by_cases hti : pyStrip T = "__TEST_INJECT__"
    · have ed : ∀ q : CommandProcessor, injects (afterDedup q (pyStrip T)).2 = true := by
        intro q
        simp only [afterDedup]
        rw [if_pos hti]
        rfl
      constructor
      · rw [e2]
        exact ed s.processor
      · rw [e4]
        exact ed _
    · have ha1 := afterDedup_free s.processor (pyStrip T) hp hf hne hti
      have hpp : (afterDedup s.processor (pyStrip T)).1.paused = false := by
        rw [ha1]
        show (s.processor.record_output (pyStrip T)).paused = false
        rw [record_output_paused]
        exact hp
      have ha2 := afterDedup_free (afterDedup s.processor (pyStrip T)).1
        (pyStrip T) hpp hf hne hti
      constructor
      · rw [e2, ha1]
        rfl
      · rw [e4, hproc, ha2]
        rfl

/-- C8 witness: from the fresh state, two calls 2 s apart: the second
call of the control phrase "暂停" is not suppressed, and both calls of
the free text "hello" inject. -/
theorem dedup_expiry_allows_both_injections_witness :
    (¬(pyStrip "暂停" = (InputService.init.handle_text "暂停" 0).1.last_msg ∧
        (2 : ℚ) - (InputService.init.handle_text "暂停" 0).1.last_time <
          SERVER_DEDUP_WINDOW_SEC)) ∧
    injects (InputService.init.handle_text "hello" 0).2 = true ∧
    injects ((InputService.init.handle_text "hello" 0).1.handle_text
      "hello" 2).2 = true :=
  ⟨(dedup_expiry_allows_both_injections.1 InputService.init "暂停" 0 2
      (Or.inr fun hc => absurd hc.1 (by decide))
      (by norm_num [SERVER_DEDUP_WINDOW_SEC]) (by decide)).1,
   dedup_expiry_allows_both_injections.2 InputService.init "hello" 0 2 rfl
     (by decide) (by decide) (fun hc => absurd hc.1 (by decide))
     (by norm_num [SERVER_DEDUP_WINDOW_SEC])⟩

/-- C9 counterexample: `execute_command` CAN throw outward — the shell
tokenization of a matched command string runs before the `try` block, so
an unbalanced quote raises `ValueError("No closing quotation")` instead
of returning a `CmdOutcome`. -/
theorem execute_command_total_cex :
    execute_command [⟨"x", .str "a \"b", none⟩] (fun _ => .completed 0 "") "x" =
      .error "No closing quotation" := rfl

/-- C9 (amended: `execute_command` returns a `CmdOutcome` in every case —
no match → ok=false "未找到匹配指令" (no matching command), empty argument
vector → ok=false "命令配置错误" (command misconfigured), completed process
→ ok = (exit code = 0), launch exception → ok=false with the exception
text — EXCEPT that tokenizing a matched command string with an unbalanced
quote propagates the tokenization error outward). -/
theorem execute_command_outcomes :
    ∀ (cmds : List ConfiguredCommand) (run : List String → RunResult)
      (text : String),
      (match_command text cmds = none →
        execute_command cmds run text =
          .ok ⟨true, "未找到匹配指令：" ++ text,
               .cmdOutcome false "未找到匹配指令"⟩) ∧
      (∀ cmd, match_command text cmds = some cmd →
        (build_command_args cmd.command cmd.args = .ok [] →
          execute_command cmds run text =
            .ok ⟨true, "命令配置错误：" ++ text,
                 .cmdOutcome false "命令配置错误"⟩) ∧
        (∀ args, build_command_args cmd.command cmd.args = .ok args →
          args ≠ [] →
          (∀ (rc : Int) (stderr : String), run args = .completed rc stderr →
            ∃ msg, execute_command cmds run text =
              .ok ⟨true, msg, .cmdOutcome (rc == 0) msg⟩) ∧
          (∀ e, run args = .raised e →
            execute_command cmds run text =
              .ok ⟨true, "指令执行异常：" ++ text ++ " - " ++ e,
                   .cmdOutcome false ("指令执行异常：" ++ e)⟩)) ∧
        (∀ e, execute_command cmds run text = .error e →
          ∃ sc, cmd.command = .str sc ∧ pyStrip sc ≠ "" ∧
            shlexSplitNonPosix sc = .error e)) := by
  intro cmds run text
  constructor
  · intro hnone
    simp only [execute_command, hnone]
  · intro cmd hsome
    refine ⟨?_, ?_, ?_⟩
    · intro hbuild
      simp [execute_command, hsome, hbuild]
    · intro args hbuild hargs
      constructor
      · intro rc stderr hrun
        simp only [execute_command, hsome, hbuild, if_neg hargs, hrun]
        exact ⟨_, rfl⟩
      · intro e hrun
        simp only [execute_command, hsome, hbuild, if_neg hargs, hrun]
    · intro e herr
      simp only [execute_command, hsome] at herr
      cases hb : build_command_args cmd.command cmd.args with
      | ok args =>
        simp only [hb] at herr
        by_cases hargs : args = []
        · simp only [if_pos hargs] at herr
          exact Except.noConfusion herr
        · simp only [if_neg hargs] at herr
          cases hr : run args with
          | completed rc stderr =>
            simp only [hr] at herr
            exact Except.noConfusion herr
          | raised e2 =>
            simp only [hr] at herr
            exact Except.noConfusion herr
      | error e2 =>
        simp only [hb] at herr
        have he : e2 = e := by
          injection herr
        subst he
        cases hcmd : cmd.command with
        | str sc =>
          simp only [build_command_args, hcmd] at hb
          by_cases hbl : pyStrip sc ≠ ""
          · simp only [if_pos hbl] at hb
            cases hsh : shlexSplitNonPosix sc with
            | error e3 =>
              simp only [hsh] at hb
              have he3 : e3 = e2 := by
                injection hb
              exact ⟨sc, rfl, hbl, by rw [hsh, he3]⟩
            | ok parts =>
              simp only [hsh] at hb
              cases harg : cmd.args with
              | some a =>
                simp only [harg] at hb
                exact Except.noConfusion hb
              | none =>
                simp only [harg] at hb
                exact Except.noConfusion hb
          · simp only [if_neg hbl] at hb
            cases harg : cmd.args with
            | some a =>
              simp only [harg] at hb
              exact Except.noConfusion hb
            | none =>
              simp only [harg] at hb
              exact Except.noConfusion hb
        | list xs =>
          simp only [build_command_args, hcmd] at hb
          cases harg : cmd.args with
          | some a =>
            simp only [harg] at hb
            exact Except.noConfusion hb
          | none =>
            simp only [harg] at hb
            exact Except.noConfusion hb
        | absent =>
          simp only [build_command_args, hcmd] at hb
          cases harg : cmd.args with
          | some a =>
            simp only [harg] at hb
            exact Except.noConfusion hb
          | none =>
            simp only [harg] at hb
            exact Except.noConfusion hb

/-- C9 witness: no configured command matches, so the no-match outcome is
returned. -/
theorem execute_command_outcomes_witness :
    execute_command [] (fun _ => RunResult.completed 0 "") "y" =
      .ok ⟨true, "未找到匹配指令：" ++ "y", .cmdOutcome false "未找到匹配指令"⟩ :=
  (execute_command_outcomes [] (fun _ => RunResult.completed 0 "") "y").1 rfl

end LanVoice
